import Mathlib

/-!
Shallow embedding of `src/fuzzers/libfuzzer_libmozjpeg/hook_allocs.c`.

The C file defines a global feedback array `size_t libafl_alloc_map[MAP_SIZE]`
with `MAP_SIZE = 16*1024`, and interposes `malloc` and `calloc`:

* both hash the caller's return address `k = (k >> 4) ^ (k << 8); k &= MAP_SIZE-1`,
* both store `libafl_alloc_map[k] = MAX(libafl_alloc_map[k], size)`,
* both allocate through `posix_memalign(&ret, 1<<6, size)` with `ret`
  pre-set to `NULL`, and return `ret`,
* `calloc` first computes `size *= nmemb` (wrapping `size_t` product) and
  then calls `memset(ret, 0, size)` unconditionally before returning.

Machine words (`size_t`, `uintptr_t`) are modelled as natural numbers
reduced modulo `2 ^ W` with `W = 64` exactly where the C arithmetic wraps.
Byte memory is a total function `Nat → Nat`; the one faulting operation,
writing through a null pointer in `memset`, is modelled by `Except`, whose
`error` value carries the global state at the moment of the fault.
`posix_memalign` is external code (libc); it is modelled as a parameter
`pm : Nat → Nat → Option Nat` taking the alignment and the size and
returning the address on success, `none` on failure (in the C code `ret`
then keeps its initial `NULL` value, modelled as address `0`).
-/

namespace HookAllocs

/-- The C macro `MAP_SIZE`, defined as `16*1024`. -/
def MAP_SIZE : Nat := 16 * 1024

/-- Width in bits of `size_t`/`uintptr_t` on the (64-bit) target. -/
def W : Nat := 64

/-- The `MAX(a, b)` macro of the C source: `_a > _b ? _a : _b`. -/
def MAX (a b : Nat) : Nat := if a > b then a else b

theorem MAX_eq_max (a b : Nat) : MAX a b = max a b := by
  unfold MAX
  split <;> omega

/-- The call-site hash of both hooks:
`k = (uintptr_t)__builtin_return_address(0); k = (k >> 4) ^ (k << 8); k &= MAP_SIZE - 1;`.
The input is first reduced to a machine word; the left shift wraps in
`uintptr_t`, hence the inner `% 2 ^ W`. -/
def hashSite (a : Nat) : Nat :=
  let k := a % 2 ^ W
  Nat.land (Nat.xor (k >>> 4) ((k <<< 8) % 2 ^ W)) (MAP_SIZE - 1)

theorem MAP_SIZE_eq_pow : MAP_SIZE = 2 ^ 14 := by decide

theorem hashSite_eq_mod (a : Nat) :
    hashSite a =
      Nat.xor ((a % 2 ^ W) >>> 4) (((a % 2 ^ W) <<< 8) % 2 ^ W) % MAP_SIZE := by
  unfold hashSite
  rw [MAP_SIZE_eq_pow]
  exact Nat.and_pow_two_sub_one_eq_mod _ 14

theorem hashSite_lt (a : Nat) : hashSite a < MAP_SIZE := by
  rw [hashSite_eq_mod]
  exact Nat.mod_lt _ (by decide)

/-- The bucket index as an index into the `MAP_SIZE`-slot array. -/
def hashFin (a : Nat) : Fin MAP_SIZE := ⟨hashSite a, hashSite_lt a⟩

/-- The global mutable state of the shim: the feedback array
`size_t libafl_alloc_map[MAP_SIZE]` and the byte-addressed memory that
`memset` writes to. -/
structure ShimState where
  libafl_alloc_map : Fin MAP_SIZE → Nat
  mem : Nat → Nat

/-- Process start: the global array is zero-initialized; memory is taken
to start all-zero as well (no claim depends on its initial contents). -/
def zeroState : ShimState := ⟨fun _ => 0, fun _ => 0⟩

/-- Effect of `memset(p, 0, n)` on memory: zero the `n` bytes at
addresses `[p, p+n)`. -/
def memsetZero (m : Nat → Nat) (p n : Nat) : Nat → Nat :=
  fun a => if p ≤ a ∧ a < p + n then 0 else m a

/-- Model of `memset(p, 0, n)` at machine level: writing `n > 0` bytes through a
null pointer (`p = 0`) faults; the `error` carries the state at the
fault.  A zero-length `memset` writes nothing. -/
def memsetC (st : ShimState) (p n : Nat) : Except ShimState ShimState :=
  if p = 0 ∧ n ≠ 0 then Except.error st
  else Except.ok { st with mem := memsetZero st.mem p n }

/-- The feedback update shared by both hooks:
`libafl_alloc_map[k] = MAX(libafl_alloc_map[k], size);`. -/
def bumpMap (st : ShimState) (k : Fin MAP_SIZE) (size : Nat) : ShimState :=
  { st with
    libafl_alloc_map := fun i =>
      if i = k then MAX (st.libafl_alloc_map i) size
      else st.libafl_alloc_map i }

/-- The interposed `malloc(size)`.  Hashes the return address, bumps the
feedback bucket with `MAX`, then services the request through
`posix_memalign(&ret, 1<<6, size)` with `ret` initialized to `NULL`
(address `0`).  Returns the new state and the address (`0` = `NULL`). -/
def malloc (pm : Nat → Nat → Option Nat) (retaddr size : Nat)
    (st : ShimState) : ShimState × Nat :=
  let k := hashFin retaddr
  let st1 := bumpMap st k size
  let ret : Nat :=
    match pm (2 ^ 6) size with
    | some p => p
    | none => 0
  (st1, ret)

/-- The interposed `calloc(nmemb, size)`.  First `size *= nmemb` (wrapping
`size_t` product), then the same hashing, feedback update and
`posix_memalign` call as `malloc`, and finally `memset(ret, 0, size)`
unconditionally.  When the allocation failed (`ret = NULL`) and the size
is nonzero, that `memset` writes through a null pointer: the result is
`Except.error` carrying the state at the fault (the feedback update has
already happened).  A zero-length `memset` writes nothing and the call
returns normally. -/
def calloc (pm : Nat → Nat → Option Nat) (nmemb size : Nat) (retaddr : Nat)
    (st : ShimState) : Except ShimState (ShimState × Nat) :=
  let sz := (size * nmemb) % 2 ^ W
  let k := hashFin retaddr
  let st1 := bumpMap st k sz
  let ret : Nat :=
    match pm (2 ^ 6) sz with
    | some p => p
    | none => 0
  (memsetC st1 ret sz).map (fun st2 => (st2, ret))

/-- The state an operation left behind, also when it faulted. -/
def exceptState : Except ShimState (ShimState × Nat) → ShimState
  | Except.ok (st, _) => st
  | Except.error st => st

/-- Whether a `calloc` invocation faulted (null-pointer write). -/
def isFault : Except ShimState (ShimState × Nat) → Bool
  | Except.ok _ => false
  | Except.error _ => true

/-- One intercepted allocation call: either hook, with its arguments and
the caller's return address. -/
inductive AllocEvent where
  | mallocEv (retaddr size : Nat)
  | callocEv (retaddr nmemb size : Nat)

/-- The return address of an event. -/
def eventSite : AllocEvent → Nat
  | AllocEvent.mallocEv r _ => r
  | AllocEvent.callocEv r _ _ => r

/-- The size a call applies to the feedback map: the argument for
`malloc`, the wrapped product for `calloc`. -/
def eventSize : AllocEvent → Nat
  | AllocEvent.mallocEv _ s => s
  | AllocEvent.callocEv _ n s => (s * n) % 2 ^ W

/-- Run one event, keeping only the state. -/
def stepEvent (pm : Nat → Nat → Option Nat) (ev : AllocEvent)
    (st : ShimState) : Except ShimState ShimState :=
  match ev with
  | AllocEvent.mallocEv r s => Except.ok (malloc pm r s st).1
  | AllocEvent.callocEv r n s =>
    match calloc pm n s r st with
    | Except.ok (st1, _) => Except.ok st1
    | Except.error st1 => Except.error st1

/-- Run a sequence of intercepted calls, stopping at the first fault. -/
def runEvents (pm : Nat → Nat → Option Nat) :
    List AllocEvent → ShimState → Except ShimState ShimState
  | [], st => Except.ok st
  | ev :: evs, st =>
    match stepEvent pm ev st with
    | Except.ok st1 => runEvents pm evs st1
    | Except.error st1 => Except.error st1

/-- The state a (possibly faulting) run left behind. -/
def runState : Except ShimState ShimState → ShimState
  | Except.ok st => st
  | Except.error st => st

/-- A `posix_memalign` behaviour that always fails (allocator exhaustion);
the C code then leaves `ret` at `NULL`. -/
def pmFail : Nat → Nat → Option Nat := fun _ _ => none

/-- A `posix_memalign` behaviour that returns the requested alignment
itself as the address: a nonzero, correctly aligned success. -/
def pmConst : Nat → Nat → Option Nat := fun a _ => some a

theorem bumpMap_map (st : ShimState) (k : Fin MAP_SIZE) (v : Nat)
    (i : Fin MAP_SIZE) :
    (bumpMap st k v).libafl_alloc_map i =
      if i = k then max (st.libafl_alloc_map i) v
      else st.libafl_alloc_map i := by
  simp only [bumpMap, MAX_eq_max]

theorem bumpMap_mem (st : ShimState) (k : Fin MAP_SIZE) (v : Nat) :
    (bumpMap st k v).mem = st.mem := rfl

theorem malloc_fst (pm : Nat → Nat → Option Nat) (r s : Nat) (st : ShimState) :
    (malloc pm r s st).1 = bumpMap st (hashFin r) s := rfl

theorem malloc_snd (pm : Nat → Nat → Option Nat) (r s : Nat) (st : ShimState) :
    (malloc pm r s st).2 =
      match pm (2 ^ 6) s with
      | some p => p
      | none => 0 := rfl

theorem calloc_eq (pm : Nat → Nat → Option Nat) (n s r : Nat) (st : ShimState) :
    calloc pm n s r st =
      (memsetC (bumpMap st (hashFin r) ((s * n) % 2 ^ W))
          (match pm (2 ^ 6) ((s * n) % 2 ^ W) with
            | some p => p
            | none => 0)
          ((s * n) % 2 ^ W)).map
        (fun st2 =>
          (st2,
            match pm (2 ^ 6) ((s * n) % 2 ^ W) with
            | some p => p
            | none => 0)) := rfl

theorem exceptState_calloc_map (pm : Nat → Nat → Option Nat) (n s r : Nat)
    (st : ShimState) :
    (exceptState (calloc pm n s r st)).libafl_alloc_map =
      (bumpMap st (hashFin r) ((s * n) % 2 ^ W)).libafl_alloc_map := by
  rw [calloc_eq]
  unfold memsetC
  split <;> split <;> rfl

theorem runState_stepEvent_calloc (pm : Nat → Nat → Option Nat) (r n s : Nat)
    (st : ShimState) :
    runState (stepEvent pm (AllocEvent.callocEv r n s) st) =
      exceptState (calloc pm n s r st) := by
  simp only [stepEvent]
  cases calloc pm n s r st with
  | ok v => obtain ⟨a, b⟩ := v; rfl
  | error e => rfl

theorem stepEvent_runState_map (pm : Nat → Nat → Option Nat) (ev : AllocEvent)
    (st : ShimState) :
    (runState (stepEvent pm ev st)).libafl_alloc_map =
      (bumpMap st (hashFin (eventSite ev)) (eventSize ev)).libafl_alloc_map := by
  cases ev with
  | mallocEv r s => rfl
  | callocEv r n s =>
    rw [runState_stepEvent_calloc, exceptState_calloc_map]
    rfl

theorem step_mono (pm : Nat → Nat → Option Nat) (ev : AllocEvent)
    (st : ShimState) (k : Fin MAP_SIZE) :
    st.libafl_alloc_map k ≤ (runState (stepEvent pm ev st)).libafl_alloc_map k := by
  rw [stepEvent_runState_map, bumpMap_map]
  split
  · exact le_max_left _ _
  · exact le_refl _

theorem step_bump (pm : Nat → Nat → Option Nat) (ev : AllocEvent)
    (st : ShimState) :
    eventSize ev ≤
      (runState (stepEvent pm ev st)).libafl_alloc_map
        (hashFin (eventSite ev)) := by
  rw [stepEvent_runState_map, bumpMap_map]
  simp

theorem runEvents_mono (pm : Nat → Nat → Option Nat) (evs : List AllocEvent)
    (st stf : ShimState) (h : runEvents pm evs st = Except.ok stf)
    (k : Fin MAP_SIZE) :
    st.libafl_alloc_map k ≤ stf.libafl_alloc_map k := by
  induction evs generalizing st with
  | nil =>
    simp only [runEvents, Except.ok.injEq] at h
    subst h
    exact le_refl _
  | cons ev evs ih =>
    rw [runEvents] at h
    cases hs : stepEvent pm ev st with
    | ok st1 =>
      rw [hs] at h
      have h1 := step_mono pm ev st k
      rw [hs] at h1
      exact le_trans h1 (ih st1 h)
    | error st1 =>
      rw [hs] at h
      cases h

theorem runEvents_lower (pm : Nat → Nat → Option Nat) (evs : List AllocEvent)
    (st stf : ShimState) (h : runEvents pm evs st = Except.ok stf) :
    ∀ ev ∈ evs,
      eventSize ev ≤ stf.libafl_alloc_map (hashFin (eventSite ev)) := by
  induction evs generalizing st with
  | nil =>
    intro ev hev
    cases hev
  | cons e evs ih =>
    intro ev hev
    rw [runEvents] at h
    cases hs : stepEvent pm e st with
    | error st1 =>
      rw [hs] at h
      cases h
    | ok st1 =>
      rw [hs] at h
      rcases List.mem_cons.mp hev with rfl | hmem
      · have hb := step_bump pm ev st
        rw [hs] at hb
        exact le_trans hb (runEvents_mono pm evs st1 stf h _)
      · exact ih st1 h ev hmem

/-- C1: each bucket of `libafl_alloc_map` is monotonically non-decreasing
under every intercepted call, and after a completed sequence of calls
starting from the zero-initialized map, the bucket a call hashed to holds
at least the size that call applied — hence at least the maximum of all
sizes whose call sites hash to that bucket. -/
theorem C1_map_monotone_lower_bound :
    (∀ (pm : Nat → Nat → Option Nat) (ev : AllocEvent) (st : ShimState)
        (k : Fin MAP_SIZE),
      st.libafl_alloc_map k ≤
        (runState (stepEvent pm ev st)).libafl_alloc_map k) ∧
    (∀ (pm : Nat → Nat → Option Nat) (evs : List AllocEvent)
        (stf : ShimState), runEvents pm evs zeroState = Except.ok stf →
      ∀ ev ∈ evs,
        eventSize ev ≤ stf.libafl_alloc_map (hashFin (eventSite ev))) :=
  ⟨step_mono, fun pm evs stf h => runEvents_lower pm evs zeroState stf h⟩

/-- Witness for C1 at a concrete one-call history. -/
theorem C1_map_monotone_lower_bound_witness :
    eventSize (AllocEvent.mallocEv 0 5) ≤
      ((malloc pmConst 0 5 zeroState).1).libafl_alloc_map
        (hashFin (eventSite (AllocEvent.mallocEv 0 5))) :=
  C1_map_monotone_lower_bound.2 pmConst [AllocEvent.mallocEv 0 5]
    ((malloc pmConst 0 5 zeroState).1) rfl (AllocEvent.mallocEv 0 5)
    (List.mem_singleton.mpr rfl)

/-- C2 (code bug): `calloc` does not skip the zeroing when the
allocation fails.  With a failing allocator and a nonzero total size the
unconditional `memset(ret, 0, size)` writes through the null result and
the call faults — after the feedback bucket has already been raised. -/
theorem C2_calloc_zeroes_despite_failure :
    isFault (calloc pmFail 2 3 5 zeroState) = true ∧
    (exceptState (calloc pmFail 2 3 5 zeroState)).libafl_alloc_map
      (hashFin 5) = 6 := by
  constructor
  · rfl
  · rw [exceptState_calloc_map, bumpMap_map, if_pos rfl]
    decide

/-- C3: `calloc` computes `size *= nmemb` as a wrapping machine
multiplication and then behaves exactly like a call with the wrapped
total as its size: the same bucket update, allocation request and
zeroing; no overflow check ever rejects a request, and the bucket
receives the (possibly wrapped) product. -/
theorem C3_calloc_wrapped_size (pm : Nat → Nat → Option Nat) (c e r : Nat)
    (st : ShimState) :
    calloc pm c e r st = calloc pm 1 ((e * c) % 2 ^ W) r st ∧
    (exceptState (calloc pm c e r st)).libafl_alloc_map (hashFin r) =
      max (st.libafl_alloc_map (hashFin r)) ((e * c) % 2 ^ W) := by
  constructor
  · rw [calloc_eq, calloc_eq, Nat.mul_one, Nat.mod_mod]
  · rw [exceptState_calloc_map, bumpMap_map, if_pos rfl]

/-- C4: the bucket index for a return address `a` is
`((a >> 4) ^ (a << 8)) & (16384 - 1)` over machine words; masking with
`16384 - 1` is reduction modulo 16384, so the index always lies in
`[0, 16384)`, and the feedback map has exactly 16384 slots. -/
theorem C4_hash_mask_range (a : Nat) :
    hashSite a =
      Nat.land (Nat.xor ((a % 2 ^ W) >>> 4) (((a % 2 ^ W) <<< 8) % 2 ^ W))
        (16384 - 1) ∧
    hashSite a =
      Nat.xor ((a % 2 ^ W) >>> 4) (((a % 2 ^ W) <<< 8) % 2 ^ W) % 16384 ∧
    hashSite a < 16384 ∧
    MAP_SIZE = 16384 ∧ Fintype.card (Fin MAP_SIZE) = 16384 := by
  have h16 : MAP_SIZE = 16384 := by decide
  refine ⟨rfl, ?_, ?_, h16, by rw [Fintype.card_fin, h16]⟩
  · rw [hashSite_eq_mod, h16]
  · rw [← h16]
    exact hashSite_lt a

/-- C5: when `c * e` does not overflow and the underlying allocation
succeeds with a nonnull address `p`, `calloc(c, e)` returns `p` with the
`c*e` bytes at `[p, p + c*e)` all zero, and leaves every byte outside
that region unchanged. -/
theorem C5_calloc_zero_fill (pm : Nat → Nat → Option Nat) (c e r : Nat)
    (st : ShimState) (p : Nat) (hof : c * e < 2 ^ W)
    (hpm : pm (2 ^ 6) (c * e) = some p) (hp : p ≠ 0) :
    ∃ st2, calloc pm c e r st = Except.ok (st2, p) ∧
      (∀ i, i < c * e → st2.mem (p + i) = 0) ∧
      (∀ a, a < p ∨ p + c * e ≤ a → st2.mem a = st.mem a) := by
  have hsz : (e * c) % 2 ^ W = c * e := by
    rw [Nat.mul_comm e c]
    exact Nat.mod_eq_of_lt hof
  refine ⟨{ bumpMap st (hashFin r) (c * e) with
            mem := memsetZero st.mem p (c * e) }, ?_, ?_, ?_⟩
  · rw [calloc_eq, hsz, hpm]
    simp only [memsetC]
    rw [if_neg (fun hand => hp hand.1)]
    rfl
  · intro i hi
    simp only [memsetZero]
    rw [if_pos ⟨Nat.le_add_right p i, by omega⟩]
  · intro a ha
    simp only [memsetZero]
    rw [if_neg (by omega)]

/-- Witness for C5: `calloc(10, 4)` with a succeeding allocator at
address 64 yields 40 zero bytes. -/
theorem C5_calloc_zero_fill_witness :
    ∃ st2, calloc pmConst 10 4 0 zeroState = Except.ok (st2, 64) ∧
      (∀ i, i < 10 * 4 → st2.mem (64 + i) = 0) ∧
      (∀ a, a < 64 ∨ 64 + 10 * 4 ≤ a → st2.mem a = zeroState.mem a) :=
  C5_calloc_zero_fill pmConst 10 4 0 zeroState 64 (by decide) rfl
    (by decide)

/-- C6 (code bug): with a failing allocator, `malloc` returns the null
indicator to its caller as claimed, but `calloc` with a nonzero total
does not: its unconditional `memset` dereferences the null result and
the process faults instead of returning the failure indicator. -/
theorem C6_failure_propagation :
    (malloc pmFail 0 7 zeroState).2 = 0 ∧
    isFault (calloc pmFail 1 1 0 zeroState) = true := by
  exact ⟨rfl, rfl⟩

/-- C7: one intercepted call changes at most the single bucket derived
from its return address: every other bucket — in particular the bucket
of any call site whose hash differs — is unchanged, and `malloc` leaves
all of memory unchanged.  The modified bucket depends only on the return
address, so two calls with the same return address update the same
bucket. -/
theorem C7_single_call_frame (pm : Nat → Nat → Option Nat) (r s n e : Nat)
    (st : ShimState) (j : Fin MAP_SIZE) (hj : j ≠ hashFin r) :
    (malloc pm r s st).1.libafl_alloc_map j = st.libafl_alloc_map j ∧
    (exceptState (calloc pm n e r st)).libafl_alloc_map j =
      st.libafl_alloc_map j ∧
    (malloc pm r s st).1.mem = st.mem ∧
    (∀ r2, hashFin r ≠ hashFin r2 →
      (malloc pm r s st).1.libafl_alloc_map (hashFin r2) =
        st.libafl_alloc_map (hashFin r2)) := by
  refine ⟨?_, ?_, rfl, ?_⟩
  · rw [malloc_fst, bumpMap_map, if_neg hj]
  · rw [exceptState_calloc_map, bumpMap_map, if_neg hj]
  · intro r2 hne
    rw [malloc_fst, bumpMap_map, if_neg (fun hh => hne hh.symm)]

/-- Witness for C7 at concrete calls from return address 0 and the
untouched bucket 1. -/
theorem C7_single_call_frame_witness :
    (malloc pmConst 0 5 zeroState).1.libafl_alloc_map ⟨1, by decide⟩ =
      zeroState.libafl_alloc_map ⟨1, by decide⟩ ∧
    (exceptState (calloc pmConst 2 3 0 zeroState)).libafl_alloc_map
      ⟨1, by decide⟩ = zeroState.libafl_alloc_map ⟨1, by decide⟩ ∧
    (malloc pmConst 0 5 zeroState).1.mem = zeroState.mem ∧
    (∀ r2, hashFin 0 ≠ hashFin r2 →
      (malloc pmConst 0 5 zeroState).1.libafl_alloc_map (hashFin r2) =
        zeroState.libafl_alloc_map (hashFin r2)) :=
  C7_single_call_frame pmConst 0 5 2 3 zeroState ⟨1, by decide⟩ (by decide)

/-- C8: under the `posix_memalign` contract — a returned address is a
multiple of the requested alignment — every nonnull address `malloc`
returns is a multiple of 64, because the hook requests alignment
`1 << 6`. -/
theorem C8_malloc_aligned (pm : Nat → Nat → Option Nat)
    (hpm : ∀ a s p, pm a s = some p → p % a = 0) (r s : Nat)
    (st : ShimState) (hret : (malloc pm r s st).2 ≠ 0) :
    (malloc pm r s st).2 % 64 = 0 := by
  rw [malloc_snd] at hret ⊢
  cases hc : pm (2 ^ 6) s with
  | none =>
    rw [hc] at hret
    simp at hret
  | some p =>
    exact hpm (2 ^ 6) s p hc

/-- Witness for C8 at a concrete aligned allocator. -/
theorem C8_malloc_aligned_witness :
    (malloc pmConst 0 5 zeroState).2 % 64 = 0 :=
  C8_malloc_aligned pmConst
    (fun a s p h => by
      simp only [pmConst, Option.some.injEq] at h
      subst h
      exact Nat.mod_self a)
    0 5 zeroState (by decide)

/-- C9: `malloc(0)` is a total computation in the model — it cannot
fault —, its result is exactly the allocator's answer for a zero-size
request (the address on success, null on failure), and the result does
not depend on the prior global state, so repeated calls from one call
site with size 0 give the same kind of outcome. -/
theorem C9_malloc_zero_total (pm : Nat → Nat → Option Nat) (r : Nat)
    (st st' : ShimState) :
    ((malloc pm r 0 st).2 =
      match pm (2 ^ 6) 0 with
      | some p => p
      | none => 0) ∧
    (malloc pm r 0 st).2 = (malloc pm r 0 st').2 :=
  ⟨rfl, rfl⟩

/-- C10: in both hooks the feedback update precedes the allocation
attempt: when `posix_memalign` fails, the bucket has nevertheless been
raised to the maximum of its old value and the requested size (for
`calloc`, in the state at the return or at the fault), while `malloc`
returns null. -/
theorem C10_update_precedes_alloc (pm : Nat → Nat → Option Nat)
    (r s c e : Nat) (st : ShimState) (hm : pm (2 ^ 6) s = none)
    (_hc : pm (2 ^ 6) ((e * c) % 2 ^ W) = none) :
    (malloc pm r s st).1.libafl_alloc_map (hashFin r) =
      max (st.libafl_alloc_map (hashFin r)) s ∧
    (malloc pm r s st).2 = 0 ∧
    (exceptState (calloc pm c e r st)).libafl_alloc_map (hashFin r) =
      max (st.libafl_alloc_map (hashFin r)) ((e * c) % 2 ^ W) := by
  refine ⟨?_, ?_, ?_⟩
  · rw [malloc_fst, bumpMap_map, if_pos rfl]
  · rw [malloc_snd, hm]
  · rw [exceptState_calloc_map, bumpMap_map, if_pos rfl]

/-- Witness for C10 at a concrete failing allocator. -/
theorem C10_update_precedes_alloc_witness :
    (malloc pmFail 0 7 zeroState).1.libafl_alloc_map (hashFin 0) =
      max (zeroState.libafl_alloc_map (hashFin 0)) 7 ∧
    (malloc pmFail 0 7 zeroState).2 = 0 ∧
    (exceptState (calloc pmFail 2 3 0 zeroState)).libafl_alloc_map
      (hashFin 0) =
      max (zeroState.libafl_alloc_map (hashFin 0)) ((3 * 2) % 2 ^ W) :=
  C10_update_precedes_alloc pmFail 0 7 2 3 zeroState rfl rfl

end HookAllocs
